import Mathlib

/-
Verification development for the invoice matching & inventory application
(pocFactura_legacy).  The Python sources are embedded shallowly:

* Python `str` values are Lean `String`s; operations that matter to the
  claims (`.lower()`, comparison, `float(...)`, `round(..., 4)`) are
  modelled over `String.data : List Char`, matching Python's code-point
  semantics for the ASCII inputs the program handles.
* Python `float` quantities and scores are modelled as `ℚ` (exact
  rationals).  The claims under study are structural (filtering, sorting,
  statuses, ledger bookkeeping), so none of them depends on binary
  floating-point rounding error; `float('nan')`/`'inf'` inputs are outside
  the model and `parseFloat` rejects them.
* Python dicts used as records become structures; the inventory dict
  (string -> float, insertion ordered) becomes an association list with
  Python-dict update/insert semantics.
* External effects (Gemini backend, JSON decoding of its reply, the
  filesystem) are oracle parameters with the same shape as the library
  results the code consumes.
-/

namespace Invoice

/-- Python `str.lower()` restricted to simple case mapping (identical to
Python for the ASCII data this program processes). -/
def lowerStr (s : String) : String := ⟨s.data.map Char.toLower⟩

/-- Lower-cased code-point sequence of a string; used as sort key, mirroring
`key(x).lower()` comparisons in the Python merge sort. -/
def lowerKey (s : String) : List Char := s.data.map Char.toLower

/-- Value of a digit list, most significant first (meaningful when all
characters are digits). -/
def natOfDigits (cs : List Char) : ℕ :=
  cs.foldl (fun n c => 10 * n + (c.toNat - 48)) 0

/-- Python `str.strip()` on a code-point list. -/
def trimChars (cs : List Char) : List Char :=
  ((cs.dropWhile Char.isWhitespace).reverse.dropWhile Char.isWhitespace).reverse

/-- Syntactic stage of Python `float(s)` for plain decimal notation:
optional whitespace, optional sign, digits with an optional single decimal
point.  Returns (negative?, integer digits value, fraction digits value,
fraction digit count).  Scientific notation, `inf`/`nan` and underscore
separators never occur in the inputs the claims are about and are rejected
(`none`). -/
def parseFloatRepr (s : String) : Option (Bool × ℕ × ℕ × ℕ) :=
  let cs := trimChars s.data
  let signed : Bool × List Char :=
    match cs with
    | '+' :: rest => (false, rest)
    | '-' :: rest => (true, rest)
    | _ => (false, cs)
  match signed.2.splitOn '.' with
  | [ip] =>
      if ip.isEmpty then none
      else if ip.all Char.isDigit then some (signed.1, natOfDigits ip, 0, 0) else none
  | [ip, fp] =>
      if ip.isEmpty && fp.isEmpty then none
      else if ip.all Char.isDigit && fp.all Char.isDigit then
        some (signed.1, natOfDigits ip, natOfDigits fp, fp.length)
      else none
  | _ => none

/-- Rational value of a parsed decimal literal. -/
def qOfRepr (r : Bool × ℕ × ℕ × ℕ) : ℚ :=
  (if r.1 then -1 else 1) * ((r.2.1 : ℚ) + (r.2.2.1 : ℚ) / 10 ^ r.2.2.2)

/-- Model of Python `float(s)`; `none` models the `ValueError` the callers
catch. -/
def parseFloat (s : String) : Option ℚ :=
  (parseFloatRepr s).map qOfRepr

/-- Round-half-to-even on rationals, the tie rule of Python `round`. -/
def roundHalfEven (x : ℚ) : ℤ :=
  let f := ⌊x⌋
  let r := x - f
  if r < 1 / 2 then f
  else if 1 / 2 < r then f + 1
  else if Even f then f else f + 1

/-- Model of Python `round(x, 4)`. -/
def round4 (x : ℚ) : ℚ := (roundHalfEven (x * 10000) : ℚ) / 10000

/- ===== difflib.SequenceMatcher ratio =====

`SequenceMatcher(None, a, b).ratio()` = 2·M / (|a|+|b|) where M is the total
size of the matching blocks: recursively, the longest common run between the
current windows (ties resolved toward the smallest start position in `a`,
then in `b`, which is what `find_longest_match`'s strict-improvement scan
produces), then recurse on the two unmatched sides.  The junk/autojunk
heuristics are identity for the short strings this program scores (autojunk
activates only when the second string has ≥ 200 characters). -/

/-- Length of the common prefix of two code-point lists. -/
def commonPrefixLen : List Char → List Char → ℕ
  | a :: as, b :: bs => if a = b then commonPrefixLen as bs + 1 else 0
  | _, _ => 0

/-- Length of the common run of `a`/`b` starting at positions `p`/`q`,
confined to the windows ending at `pe`/`qe`. -/
def runLen (a b : List Char) (p q pe qe : ℕ) : ℕ :=
  commonPrefixLen ((a.drop p).take (pe - p)) ((b.drop q).take (qe - q))

/-- `find_longest_match` over the windows `[alo,ahi) × [blo,bhi)`: the
longest common run, ties broken toward smaller start in `a`, then in `b`
(strict-improvement scan in lexicographic order of start positions). -/
def findLongestMatch (a b : List Char) (alo ahi blo bhi : ℕ) : ℕ × ℕ × ℕ :=
  (List.range' alo (ahi - alo)).foldl
    (fun best p =>
      (List.range' blo (bhi - blo)).foldl
        (fun best q =>
          let k := runLen a b p q ahi bhi
          if best.2.2 < k then (p, q, k) else best)
        best)
    (alo, blo, 0)

/-- Total size of the recursively collected matching blocks.  The recursion
strictly shrinks the window pair, so any `fuel` larger than the combined
window size computes the true value; callers pass `|a|+|b|+1`. -/
def matchSum (a b : List Char) : ℕ → ℕ → ℕ → ℕ → ℕ → ℕ
  | 0, _, _, _, _ => 0
  | fuel + 1, alo, ahi, blo, bhi =>
      match findLongestMatch a b alo ahi blo bhi with
      | (i, j, k) =>
        if k = 0 then 0
        else k + matchSum a b fuel alo i blo j + matchSum a b fuel (i + k) ahi (j + k) bhi

/-- `difflib.SequenceMatcher(None, s, t).ratio()` (both strings empty gives
`1.0`, as in `difflib._calculate_ratio`). -/
def ratio (s t : String) : ℚ :=
  let a := s.data
  let b := t.data
  let tot := a.length + b.length
  if tot = 0 then 1
  else 2 * (matchSum a b (tot + 1) 0 a.length 0 b.length : ℚ) / tot

/- ===== Data model ===== -/

/-- One extracted invoice line (extract_lines_from_xml / ubl_lines.extract_lines
output): all four scalar fields are decimal-as-string, `line_id` a 1-based
sequential string. -/
structure InvoiceLine where
  line_id : String
  description : String
  quantity : String
  unit_price : String
  line_total : String
deriving DecidableEq

/-- One candidate produced per catalog row in the matching loop.  Catalog
codes are kept as strings; the program only ever compares them for
equality, so the opaque original type is immaterial. -/
structure MatchCandidate where
  matched_code : String
  matched_description : String
  score : ℚ
deriving DecidableEq

/-- One row of the reference catalog (first column = code, second column =
description). -/
structure CatalogEntry where
  code : String
  description : String
deriving DecidableEq

/-- An invoice line after reconciliation: the original fields plus the
annotation fields the matcher adds.  In Python the line dict grows keys;
`reasoning`/`fuzzy_score` are `none` on paths where the key is never set. -/
structure AnnotatedLine where
  line_id : String
  description : String
  quantity : String
  unit_price : String
  line_total : String
  matched_code : Option String
  matched_description : Option String
  score : ℚ
  status : String
  reasoning : Option String
  fuzzy_score : Option ℚ
deriving DecidableEq

/-- The original extraction fields of an annotated line (used to state the
frame property of the matchers). -/
def AnnotatedLine.originals (x : AnnotatedLine) :
    String × String × String × String × String :=
  (x.line_id, x.description, x.quantity, x.unit_price, x.line_total)

/-- The original extraction fields of an input line. -/
def InvoiceLine.originals (x : InvoiceLine) :
    String × String × String × String × String :=
  (x.line_id, x.description, x.quantity, x.unit_price, x.line_total)

/- ===== Stable merge sort =====

`merge_sort` / `merge` in invoice_scanner_pro.py sort by
`key(x).lower() <= key(y).lower()`; taking the left element on ties makes
the sort stable.  The comparison is factored into a key map `k` into a
linear order (`List Char` with code-point lexicographic order matches
Python string comparison of the lowered keys).  Python's built-in
`list.sort` (used on the candidate list) is also a stable sort, hence
extensionally equal to this one under the same key. -/

/-- `merge(left, right, key)`: take from the left while its key is ≤. -/
def mergeKey {α β : Type} [LinearOrder β] (k : α → β) : List α → List α → List α
  | [], r => r
  | a :: l, [] => a :: l
  | a :: l, b :: r =>
      if k a ≤ k b then a :: mergeKey k l (b :: r)
      else b :: mergeKey k (a :: l) r
termination_by l r => l.length + r.length

/-- `merge_sort(arr, key)`: split at the middle, sort both halves, merge. -/
def mergeSortKey {α β : Type} [LinearOrder β] (k : α → β) (arr : List α) : List α :=
  if h : arr.length ≤ 1 then arr
  else
    mergeKey k (mergeSortKey k (arr.take (arr.length / 2)))
               (mergeSortKey k (arr.drop (arr.length / 2)))
termination_by arr.length
decreasing_by
  · simp only [List.length_take]; omega
  · simp only [List.length_drop]; omega

/-- The source `merge_sort` with its string key, comparisons lower-cased
(the `.lower()` of the source comparison is hoisted into the key map). -/
def merge_sort {α : Type} (arr : List α) (key : α → String) : List α :=
  mergeSortKey (fun x => lowerKey (key x)) arr

theorem mergeKey_perm {α β : Type} [LinearOrder β] (k : α → β) (l r : List α) :
    List.Perm (mergeKey k l r) (l ++ r) := by
  induction l, r using mergeKey.induct k with
  | case1 r => simp [mergeKey]
  | case2 a l => simp [mergeKey]
  | case3 a l b r h ih =>
      simp only [mergeKey, if_pos h]
      exact ih.cons a
  | case4 a l b r h ih =>
      simp only [mergeKey, if_neg h]
      exact (ih.cons b).trans (List.perm_middle.symm)

theorem pairwise_mergeKey {α β : Type} [LinearOrder β] (k : α → β) (l r : List α)
    (hl : l.Pairwise (fun a b => k a ≤ k b)) (hr : r.Pairwise (fun a b => k a ≤ k b)) :
    (mergeKey k l r).Pairwise (fun a b => k a ≤ k b) := by
  induction l, r using mergeKey.induct k with
  | case1 r => simpa [mergeKey] using hr
  | case2 a l => simpa [mergeKey] using hl
  | case3 a l b r h ih =>
      simp only [mergeKey, if_pos h]
      refine List.Pairwise.cons ?_ (ih (List.pairwise_cons.mp hl).2 hr)
      intro x hx
      rcases List.mem_append.mp ((mergeKey_perm k l (b :: r)).mem_iff.mp hx) with hxl | hxr
      · exact (List.pairwise_cons.mp hl).1 x hxl
      · rcases List.mem_cons.mp hxr with rfl | hxr
        · exact h
        · exact le_trans h ((List.pairwise_cons.mp hr).1 x hxr)
  | case4 a l b r h ih =>
      simp only [mergeKey, if_neg h]
      refine List.Pairwise.cons ?_ (ih hl (List.pairwise_cons.mp hr).2)
      intro x hx
      rcases List.mem_append.mp ((mergeKey_perm k (a :: l) r).mem_iff.mp hx) with hxl | hxr
      · rcases List.mem_cons.mp hxl with rfl | hxl
        · exact (not_le.mp h).le
        · exact le_trans (not_le.mp h).le ((List.pairwise_cons.mp hl).1 x hxl)
      · exact (List.pairwise_cons.mp hr).1 x hxr

theorem filter_mergeKey {α β : Type} [LinearOrder β] (k : α → β) (p : α → Bool)
    (tied : ∀ a b, p a = true → p b = true → k a = k b) (l r : List α)
    (hl : l.Pairwise (fun a b => k a ≤ k b)) (hr : r.Pairwise (fun a b => k a ≤ k b)) :
    (mergeKey k l r).filter p = l.filter p ++ r.filter p := by
  induction l, r using mergeKey.induct k with
  | case1 r => simp [mergeKey]
  | case2 a l => simp [mergeKey]
  | case3 a l b r h ih =>
      have ih' := ih (List.pairwise_cons.mp hl).2 hr
      simp only [mergeKey, if_pos h, List.filter_cons, ih']
      cases hp : p a <;> simp
  | case4 a l b r h ih =>
      have ih' := ih hl (List.pairwise_cons.mp hr).2
      simp only [mergeKey, if_neg h]
      cases hp : p b
      · have hb : List.filter p (b :: mergeKey k (a :: l) r)
            = List.filter p (mergeKey k (a :: l) r) := by simp [hp]
        have hb2 : List.filter p (b :: r) = List.filter p r := by simp [hp]
        rw [hb, ih', hb2]
      · have hnil : (a :: l).filter p = [] := by
          refine List.filter_eq_nil_iff.mpr ?_
          intro x hx hpx
          have hax : k a ≤ k x := by
            rcases List.mem_cons.mp hx with rfl | hxl
            · exact le_refl _
            · exact (List.pairwise_cons.mp hl).1 x hxl
          exact h (le_of_le_of_eq hax (tied x b hpx hp))
        have hb : List.filter p (b :: mergeKey k (a :: l) r)
            = b :: List.filter p (mergeKey k (a :: l) r) := by simp [hp]
        have hb2 : List.filter p (b :: r) = b :: List.filter p r := by simp [hp]
        rw [hb, ih', hnil, hb2]
        simp

theorem mergeSortKey_perm {α β : Type} [LinearOrder β] (k : α → β) (arr : List α) :
    List.Perm (mergeSortKey k arr) arr := by
  induction arr using mergeSortKey.induct k with
  | case1 arr h => rw [mergeSortKey, dif_pos h]
  | case2 arr h ih1 ih2 =>
      rw [mergeSortKey, dif_neg h]
      refine (mergeKey_perm k _ _).trans ((ih1.append ih2).trans ?_)
      rw [List.take_append_drop]

theorem pairwise_mergeSortKey {α β : Type} [LinearOrder β] (k : α → β) (arr : List α) :
    (mergeSortKey k arr).Pairwise (fun a b => k a ≤ k b) := by
  induction arr using mergeSortKey.induct k with
  | case1 arr h =>
      rw [mergeSortKey, dif_pos h]
      match arr, h with
      | [], _ => exact List.Pairwise.nil
      | [a], _ => simp
  | case2 arr h ih1 ih2 =>
      rw [mergeSortKey, dif_neg h]
      exact pairwise_mergeKey k _ _ ih1 ih2

theorem filter_mergeSortKey {α β : Type} [LinearOrder β] (k : α → β) (p : α → Bool)
    (tied : ∀ a b, p a = true → p b = true → k a = k b) (arr : List α) :
    (mergeSortKey k arr).filter p = arr.filter p := by
  induction arr using mergeSortKey.induct k with
  | case1 arr h => rw [mergeSortKey, dif_pos h]
  | case2 arr h ih1 ih2 =>
      rw [mergeSortKey, dif_neg h,
        filter_mergeKey k p tied _ _ (pairwise_mergeSortKey k _) (pairwise_mergeSortKey k _),
        ih1, ih2, ← List.filter_append, List.take_append_drop]

/- ===== Lexical matching (matcher.match_descriptions and
invoice_scanner_pro.fuzzy_match_descriptions share this candidate loop,
the two source loops are character-for-character identical) ===== -/

/-- `matches.sort(key=lambda x: x["score"], reverse=True)`: Python's sort is
stable, and a stable descending sort equals a stable ascending sort by the
negated key, here realised by the stable merge sort above. -/
def sortCandidates (ms : List MatchCandidate) : List MatchCandidate :=
  mergeSortKey (fun m => -m.score) ms

/-- The unsorted `matches` list the per-line loop accumulates: for every
catalog row in iteration order, score the lower-cased pair; keep rows whose
raw score clears `min_score`, storing the score rounded to 4 digits. -/
def rawCandidates (catalog : List CatalogEntry) (min_score : ℚ) (desc : String) :
    List MatchCandidate :=
  catalog.filterMap (fun row =>
    let s := ratio (lowerStr desc) (lowerStr row.description)
    if min_score ≤ s then some ⟨row.code, row.description, round4 s⟩ else none)

/-- The candidate list one line's description produces: the accumulated
matches, sorted by stored score, descending, stable. -/
def lineCandidates (catalog : List CatalogEntry) (min_score : ℚ) (desc : String) :
    List MatchCandidate :=
  sortCandidates (rawCandidates catalog min_score desc)

/-- Build an annotated line from the original line plus annotation fields. -/
def annotBase (line : InvoiceLine) (mc md : Option String) (sc : ℚ) (st : String)
    (rs : Option String) (fz : Option ℚ) : AnnotatedLine :=
  ⟨line.line_id, line.description, line.quantity, line.unit_price, line.line_total,
   mc, md, sc, st, rs, fz⟩

/- ===== AI Arbiter (gemini_patcher.GeminiMatcher) ===== -/

/-- The decoded shape of the backend's JSON reply
(`{selected_code, confidence, reasoning}`), after the `.get` defaulting the
source applies (`confidence` 0.5, `reasoning` "Nicio explicatie furnizata");
`selected_code = none` models JSON `null`. -/
structure GeminiJson where
  selected_code : Option String
  confidence : ℚ
  reasoning : String
deriving DecidableEq

/-- The result dict `analyze_candidates` produces. -/
structure GeminiResult where
  matched_code : Option String
  matched_description : Option String
  confidence : ℚ
  reasoning : String
  status : String
  ai_method : Option String
deriving DecidableEq

/-- `GeminiMatcher._create_fallback_result`. -/
def createFallbackResult (best : MatchCandidate) (error_msg : String) : GeminiResult :=
  ⟨some best.matched_code, some best.matched_description, best.score,
   "Analiza Gemini a esuat: " ++ error_msg ++ ". Folosesc cel mai bun rezultat fuzzy.",
   "gemini_fallback", none⟩

/-- `GeminiMatcher._create_no_match_result`. -/
def createNoMatchResult : GeminiResult :=
  ⟨none, none, 0, "Niciun candidat disponibil din matching-ul fuzzy", "no_match", none⟩

/-- `GeminiMatcher._parse_gemini_response`, parametrised by the result of
code-fence stripping plus `json.loads` (`none` = the decode, key lookup or
`float(confidence)` raised, i.e. the source's except branch).  `first` is
`candidates[0]`; the call site always passes a non-empty candidate list. -/
def parseGeminiResponse (decoded : Option GeminiJson) (first : MatchCandidate)
    (candidates : List MatchCandidate) : GeminiResult :=
  match decoded with
  | none => createFallbackResult first "Nu s-a putut parsa raspunsul AI"
  | some g =>
      match g.selected_code with
      | none => ⟨none, none, g.confidence, g.reasoning, "gemini_no_match", none⟩
      | some sc =>
          if sc = "null" then ⟨none, none, g.confidence, g.reasoning, "gemini_no_match", none⟩
          else
            match candidates.find? (fun c => c.matched_code == sc) with
            | none => createFallbackResult first
                ("AI a ales un cod invalid (" ++ sc ++ ") care nu era in lista")
            | some c => ⟨some c.matched_code, some c.matched_description, g.confidence,
                g.reasoning, "gemini_analyzed", none⟩

/-- The backend as an oracle: prompt construction is folded into passing the
description and offered candidates; `.error e` models an exception raised
by `model.generate_content` (message `e`); `.ok none` a reply that fails to
decode; `.ok (some g)` a decoded reply. -/
abbrev GeminiBackend := String → List MatchCandidate → Except String (Option GeminiJson)

/-- `GeminiMatcher.analyze_candidates` with the default `min_candidates = 5`
(as every caller uses).  Note the source's `[:max(5, len(candidates))]`
slice keeps the whole list. -/
def analyzeCandidates (backend : GeminiBackend) (product_description : String)
    (candidates : List MatchCandidate) : GeminiResult :=
  match candidates.take (max 5 candidates.length) with
  | [] => createNoMatchResult
  | c0 :: rest =>
      match backend product_description (c0 :: rest) with
      | .error e => createFallbackResult c0 e
      | .ok decoded =>
          let r := parseGeminiResponse decoded c0 (c0 :: rest)
          { r with ai_method := some "gemini" }

/- ===== Reconciliation engine (matcher.match_descriptions) ===== -/

/-- The arbiter as seen by `match_descriptions`: `none` models a disabled
arbiter (`use_gemini` false, import failure, or missing API key — all of
which clear `use_gemini`/`gemini_matcher`); `.error` models any exception
escaping `analyze_candidates` for one line. -/
abbrev GeminiCall := String → List MatchCandidate → Except String GeminiResult

/-- Per-line body of the `match_descriptions` loop. -/
def annotateLine (gemini : Option GeminiCall) (catalog : List CatalogEntry)
    (min_score gemini_threshold : ℚ) (line : InvoiceLine) : AnnotatedLine :=
  match lineCandidates catalog min_score line.description with
  | [] => annotBase line none none 0 "fara_potriviri" none none
  | best :: rest =>
      match gemini with
      | some g =>
          if best.score < gemini_threshold then
            match g line.description ((best :: rest).take 5) with
            | .ok r => annotBase line r.matched_code r.matched_description r.confidence
                r.status (some r.reasoning) (some best.score)
            | .error _ => annotBase line (some best.matched_code)
                (some best.matched_description) best.score "eroare_gemini_fallback" none none
          else annotBase line (some best.matched_code) (some best.matched_description)
            best.score
            (if gemini_threshold ≤ best.score then "potrivit_fuzzy" else "fuzzy_confidence_scazut")
            none none
      | none => annotBase line (some best.matched_code) (some best.matched_description)
          best.score
          (if gemini_threshold ≤ best.score then "potrivit_fuzzy" else "fuzzy_confidence_scazut")
          none none

/-- `matcher.match_descriptions` (the summary prints aside). -/
def match_descriptions (gemini : Option GeminiCall) (catalog : List CatalogEntry)
    (min_score gemini_threshold : ℚ) (lines : List InvoiceLine) : List AnnotatedLine :=
  lines.map (annotateLine gemini catalog min_score gemini_threshold)

/-- Per-line body of `invoice_scanner_pro.fuzzy_match_descriptions`. -/
def fuzzyAnnotateLine (catalog : List CatalogEntry) (min_score : ℚ)
    (line : InvoiceLine) : AnnotatedLine :=
  match lineCandidates catalog min_score line.description with
  | [] => annotBase line none none 0 "no_match" none none
  | best :: _ => annotBase line (some best.matched_code) (some best.matched_description)
      best.score "matched" none none

/-- `invoice_scanner_pro.fuzzy_match_descriptions` (default `min_score` is
0.18, as at its only call site). -/
def fuzzy_match_descriptions (catalog : List CatalogEntry) (min_score : ℚ)
    (lines : List InvoiceLine) : List AnnotatedLine :=
  lines.map (fuzzyAnnotateLine catalog min_score)

/- ===== Inventory ledger =====

The Python inventory is a JSON object / dict `description -> float`,
insertion ordered.  It is modelled as an association list; updating an
existing key keeps its position, a new key is appended — exactly the dict
semantics the code relies on. -/

/-- The inventory ledger. -/
abbrev Inventory := List (String × ℚ)

/-- Dict membership / read: first binding of the key. -/
def invLookup (inv : Inventory) (d : String) : Option ℚ :=
  match inv with
  | [] => none
  | (k, v) :: rest => if k = d then some v else invLookup rest d

/-- `inventory[desc] += qty` when present, `inventory[desc] = qty` when
absent (appended, per dict insertion order). -/
def invAdd (inv : Inventory) (d : String) (q : ℚ) : Inventory :=
  if (invLookup inv d).isSome then
    inv.map (fun p => if p.1 = d then (p.1, p.2 + q) else p)
  else inv ++ [(d, q)]

/-- One step of the incremental-add loop of `DataManager.process_invoice`
(lines 252-262): requires a truthy `matched_description` and a truthy
`quantity` string, then `float(quantity)` must succeed (a failure is
silently skipped). -/
def addLineInv (inv : Inventory) (item : AnnotatedLine) : Inventory :=
  match item.matched_description with
  | none => inv
  | some d =>
      if d = "" then inv
      else if item.quantity = "" then inv
      else
        match parseFloat item.quantity with
        | some q => invAdd inv d q
        | none => inv

/-- The whole incremental-add loop over a processed document's lines. -/
def processInventoryUpdate (inv : Inventory) (standardized : List AnnotatedLine) : Inventory :=
  standardized.foldl addLineInv inv

/-- One row of a stored per-document artifact (CSV), as the rebuild and
deletion code reads it back: only the `matched_description` and `quantity`
columns are consulted.  A `none` description models the NaN that pandas
yields for a line that matched nothing (read back by `str(...)` as the
string "nan"). -/
structure ArtifactRow where
  matched_description : Option String
  quantity : String
deriving DecidableEq

/-- One row of the `ModernApp.recalculate_inventory` rebuild loop (lines
1079-1092): `desc = str(row['matched_description'])` is skipped when falsy
or equal to `'nan'`; then `float(row['quantity'])` must succeed. -/
def recomputeRow (inv : Inventory) (row : ArtifactRow) : Inventory :=
  let desc := row.matched_description.getD "nan"
  if desc = "" then inv
  else if desc = "nan" then inv
  else
    match parseFloat row.quantity with
    | some q => invAdd inv desc q
    | none => inv

/-- `ModernApp.recalculate_inventory`: clear the ledger, then replay every
stored artifact.  The CSV directory contents are identified with the
registered documents' stored artifacts (the program writes exactly one CSV
per registered document and unlinks it on deletion); `artifacts` is that
collection in the order the rebuild visits it. -/
def recalculate_inventory (artifacts : List (List ArtifactRow)) : Inventory :=
  artifacts.foldl (fun inv rows => rows.foldl recomputeRow inv) []

/-- The quantities the specification's ledger invariant sums for one key:
quantities of all artifact lines whose `matched_description` equals the key
and whose quantity parses as a number. -/
def specContribs (artifacts : List (List ArtifactRow)) (key : String) : List ℚ :=
  artifacts.flatten.filterMap (fun r =>
    if r.matched_description = some key then parseFloat r.quantity else none)

/-- Modelled from the spec's invariant wording (§3/§4.5): the ledger value
the recompute claim asserts for a key — the sum of the matching quantities,
or absence when there are none. -/
def specLedgerValue (artifacts : List (List ArtifactRow)) (key : String) : Option ℚ :=
  if specContribs artifacts key = [] then none else some (specContribs artifacts key).sum

/- ===== Document registry, deletion, store ===== -/

/-- A registered document (current format). -/
structure DocRecord where
  name : String
  csv_filename : String
  date : String
  lines_count : ℕ
  matched_count : ℕ
deriving DecidableEq

/-- The process-wide store `{documents, inventory}`. -/
structure Store where
  documents : List DocRecord
  inventory : Inventory
deriving DecidableEq

/-- Registry effect of `DataManager.process_invoice` (lines 264-275):
append the new record, then re-sort the whole sequence with
`merge_sort(..., key=lambda x: x["name"])`. -/
def registryAppend (docs : List DocRecord) (doc : DocRecord) : List DocRecord :=
  merge_sort (docs ++ [doc]) (fun d => d.name)

/-- `DataManager.delete_document` (lines 292-299): drop every record equal
(as a dict) to the given one; the CSV unlink is a filesystem effect outside
the store. -/
def dataManagerDeleteDocument (store : Store) (doc : DocRecord) : Store :=
  { store with documents := store.documents.filter (fun d => d ≠ doc) }

/-- The `ModernApp.delete_document` that is actually bound: the class body
defines the method twice, and the second definition (lines 1126-1145)
shadows the first, so the deletion the running program performs looks the
record up by name and calls `DataManager.delete_document` — it never
touches the inventory. -/
def modernAppDeleteDocument (store : Store) (doc_name : String) : Store :=
  match store.documents.find? (fun d => d.name == doc_name) with
  | none => store
  | some doc => dataManagerDeleteDocument store doc

/-- The shadowed first `ModernApp.delete_document` (lines 976-1051), dead
code in the program: per artifact row with truthy, non-'nan' description
and truthy quantity, subtract the parsed quantity from an existing ledger
entry and delete the entry when the result is ≤ 0.  (`quantity` truthiness
is modelled on the stored string; pandas may also read the column
numerically, in which case `0` is falsy as well — both readings skip the
defaulted quantity "0".) -/
def subtractRow (inv : Inventory) (row : ArtifactRow) : Inventory :=
  let desc := row.matched_description.getD "nan"
  if desc = "" then inv
  else if desc = "nan" then inv
  else if row.quantity = "" then inv
  else
    match parseFloat row.quantity with
    | none => inv
    | some q =>
        match invLookup inv desc with
        | none => inv
        | some v =>
            if v - q ≤ 0 then inv.filter (fun p => p.1 ≠ desc)
            else inv.map (fun p => if p.1 = desc then (p.1, p.2 - q) else p)

/- ===== Persistence (DataManager.load_data / _migrate_old_data) ===== -/

/-- A stored document record as the JSON decoder gives it back: any key may
be absent. -/
structure RawDoc where
  name : Option String
  filename : Option String
  csv_filename : Option String
  date : Option String
  lines_count : Option ℕ
  matched_count : Option ℕ
deriving DecidableEq

/-- The decoded store blob: either top-level key may be absent. -/
structure RawStore where
  documents : Option (List RawDoc)
  inventory : Option Inventory
deriving DecidableEq

/-- The states of the store file that `load_data` distinguishes: missing
file, present but whitespace-only content, present but undecodable
(`json.loads` raised), or decoded to `raw`.  `json.loads` itself is the
external parser. -/
inductive FileState
  | missing
  | empty
  | corrupt
  | wellFormed (raw : RawStore)
deriving DecidableEq

/-- What `load_data` returns: migrated documents (kept raw-shaped — Python
keeps new-format dicts verbatim, whatever keys they carry) plus the
inventory. -/
structure LoadedStore where
  documents : List RawDoc
  inventory : Inventory
deriving DecidableEq

/-- `DataManager._migrate_old_data`, per document: keep a record that has
`lines_count`, `matched_count` and `csv_filename`; rebuild anything else
with defaults (`now` is the `datetime.now()` timestamp string). -/
def migrateDoc (now : String) (d : RawDoc) : RawDoc :=
  if d.lines_count.isSome && d.matched_count.isSome && d.csv_filename.isSome then d
  else
    { name := some (d.name.getD "Unknown")
      filename := none
      csv_filename := some ((d.filename.orElse (fun _ => d.csv_filename)).getD "N/A")
      date := some (d.date.getD now)
      lines_count := some 0
      matched_count := some 0 }

/-- `DataManager.load_data`: a missing, empty or corrupt file yields the
fresh empty store (the corrupt branch also unlinks the file, a filesystem
effect outside the store); a decoded store is migrated (and re-saved when
the migration changed anything).  The broad `except` clause in the source
makes this total: no parse failure escapes to the caller. -/
def load_data (fs : FileState) (now : String) : LoadedStore :=
  match fs with
  | .missing => ⟨[], []⟩
  | .empty => ⟨[], []⟩
  | .corrupt => ⟨[], []⟩
  | .wellFormed raw => ⟨(raw.documents.getD []).map (migrateDoc now), raw.inventory.getD []⟩

/- ===== Inventory lemmas ===== -/

theorem invLookup_mapAdd (inv : Inventory) (d : String) (q : ℚ) :
    invLookup (inv.map (fun p => if p.1 = d then (p.1, p.2 + q) else p)) d
      = (invLookup inv d).map (· + q) := by
  induction inv with
  | nil => rfl
  | cons p rest ih =>
      obtain ⟨k, v⟩ := p
      simp only [List.map_cons]
      by_cases h : k = d
      · subst h
        rw [if_pos rfl]
        simp [invLookup]
      · rw [if_neg h]
        simp [invLookup, h, ih]

theorem invLookup_mapAdd_other (inv : Inventory) (d key : String) (q : ℚ)
    (h : key ≠ d) :
    invLookup (inv.map (fun p => if p.1 = d then (p.1, p.2 + q) else p)) key
      = invLookup inv key := by
  induction inv with
  | nil => rfl
  | cons p rest ih =>
      obtain ⟨k, v⟩ := p
      simp only [List.map_cons]
      by_cases hp : k = d
      · subst hp
        have hkk : ¬ k = key := fun hc => h hc.symm
        rw [if_pos rfl]
        simp [invLookup, hkk, ih]
      · rw [if_neg hp]
        by_cases hk : k = key
        · subst hk
          simp [invLookup]
        · simp [invLookup, hk, ih]

theorem invLookup_append (inv1 inv2 : Inventory) (key : String) :
    invLookup (inv1 ++ inv2) key
      = match invLookup inv1 key with
        | some v => some v
        | none => invLookup inv2 key := by
  induction inv1 with
  | nil => rfl
  | cons p rest ih =>
      obtain ⟨k, v⟩ := p
      by_cases hk : k = key
      · subst hk
        simp [invLookup]
      · simp [invLookup, hk, ih]

theorem invLookup_invAdd_self (inv : Inventory) (d : String) (q : ℚ) :
    invLookup (invAdd inv d q) d = some ((invLookup inv d).getD 0 + q) := by
  unfold invAdd
  cases h : invLookup inv d with
  | none =>
      simp only [h, Option.isSome_none, Bool.false_eq_true, if_false]
      rw [invLookup_append, h]
      simp [invLookup]
  | some v =>
      simp only [h, Option.isSome_some, if_true]
      rw [invLookup_mapAdd, h]
      rfl

theorem invLookup_invAdd_other (inv : Inventory) (d key : String) (q : ℚ)
    (h : key ≠ d) :
    invLookup (invAdd inv d q) key = invLookup inv key := by
  unfold invAdd
  cases hs : (invLookup inv d).isSome
  · simp only [Bool.false_eq_true, if_false]
    rw [invLookup_append]
    have hdk : ¬ d = key := fun hc => h hc.symm
    have : invLookup [(d, q)] key = none := by simp [invLookup, hdk]
    rw [this]
    cases invLookup inv key <;> rfl
  · simp only [if_true]
    exact invLookup_mapAdd_other inv d key q h

theorem addLineInv_isSome (inv : Inventory) (item : AnnotatedLine) (key : String)
    (h : (invLookup inv key).isSome) :
    (invLookup (addLineInv inv item) key).isSome := by
  cases hmd : item.matched_description with
  | none => simpa [addLineInv, hmd] using h
  | some d =>
      by_cases hde : d = ""
      · simpa [addLineInv, hmd, hde] using h
      · by_cases hqe : item.quantity = ""
        · simpa [addLineInv, hmd, hde, hqe] using h
        · cases hpf : parseFloat item.quantity with
          | none => simpa [addLineInv, hmd, hde, hqe, hpf] using h
          | some q =>
              have hred : addLineInv inv item = invAdd inv d q := by
                unfold addLineInv
                rw [hmd]
                simp [hde, hqe, hpf]
              rw [hred]
              by_cases hk : key = d
              · subst hk
                rw [invLookup_invAdd_self]
                rfl
              · rw [invLookup_invAdd_other inv d key q hk]
                exact h

theorem processInventoryUpdate_isSome (items : List AnnotatedLine) (inv : Inventory)
    (key : String) (h : (invLookup inv key).isSome) :
    (invLookup (processInventoryUpdate inv items) key).isSome := by
  induction items generalizing inv with
  | nil => exact h
  | cons item rest ih => exact ih (addLineInv inv item) (addLineInv_isSome inv item key h)

theorem parseFloat_zero : parseFloat "0" = some 0 := by
  have h : parseFloatRepr "0" = some (false, 0, 0, 0) := by decide
  simp [parseFloat, h, qOfRepr]

/-- Claim C10: the incremental-add path of the inventory ledger never
removes an entry, and a matched line whose quantity string is the defaulted
"0" creates (or keeps) a ledger entry with value 0; hence a ledger produced
solely by incremental adds can hold entries ≤ 0 — the ≤-0 pruning exists
only on the (dead) deletion path. -/
theorem claim_C10 (inv : Inventory) (items : List AnnotatedLine) (key d : String)
    (item : AnnotatedLine)
    (hks : (invLookup inv key).isSome)
    (hd : d ≠ "")
    (habs : invLookup inv d = none)
    (hmd : item.matched_description = some d)
    (hq : item.quantity = "0") :
    (invLookup (processInventoryUpdate inv items) key).isSome
    ∧ invLookup (processInventoryUpdate inv [item]) d = some 0 := by
  constructor
  · exact processInventoryUpdate_isSome items inv key hks
  · show invLookup (addLineInv inv item) d = some 0
    have hred : addLineInv inv item = invAdd inv d 0 := by
      unfold addLineInv
      rw [hmd, hq]
      simp [hd, parseFloat_zero]
    rw [hred, invLookup_invAdd_self, habs]
    norm_num

/-- Witness for C10 at a concrete store and line. -/
theorem claim_C10_witness :
    (invLookup (processInventoryUpdate [("a", 5)]
      [⟨"1", "x", "3", "1", "3", some "C", some "a", 1, "matched", none, none⟩]) "a").isSome
    ∧ invLookup (processInventoryUpdate [("a", 5)]
      [⟨"1", "y", "0", "1", "0", some "C2", some "b", 1, "matched", none, none⟩]) "b"
        = some 0 :=
  claim_C10 [("a", 5)]
    [⟨"1", "x", "3", "1", "3", some "C", some "a", 1, "matched", none, none⟩] "a" "b"
    ⟨"1", "y", "0", "1", "0", some "C2", some "b", 1, "matched", none, none⟩
    (by simp [invLookup]) (by decide) (by simp [invLookup]) rfl rfl

/-- Claim C1 (exhibit): the `delete_document` actually bound on the running
application (the second definition shadows the first) never changes the
inventory, for any store and any document name. -/
theorem claim_C1 (store : Store) (doc_name : String) :
    (modernAppDeleteDocument store doc_name).inventory = store.inventory := by
  unfold modernAppDeleteDocument
  cases store.documents.find? (fun d => d.name == doc_name) with
  | none => rfl
  | some doc => rfl

/-- Claim C7: loading from a missing, empty or corrupt store file yields
the fresh empty store (no parse failure escapes — `load_data` is total),
and a well-formed store whose documents all carry the current field set is
returned with documents and inventory intact. -/
theorem claim_C7 (now : String) (raw : RawStore) (docs : List RawDoc) (inv : Inventory)
    (hdocs : raw.documents = some docs)
    (hinv : raw.inventory = some inv)
    (hnew : ∀ d ∈ docs, d.lines_count.isSome ∧ d.matched_count.isSome ∧ d.csv_filename.isSome) :
    load_data .missing now = ⟨[], []⟩
    ∧ load_data .empty now = ⟨[], []⟩
    ∧ load_data .corrupt now = ⟨[], []⟩
    ∧ load_data (.wellFormed raw) now = ⟨docs, inv⟩ := by
  refine ⟨rfl, rfl, rfl, ?_⟩
  have hmig : ∀ d ∈ docs, migrateDoc now d = d := by
    intro d hd
    obtain ⟨h1, h2, h3⟩ := hnew d hd
    unfold migrateDoc
    rw [if_pos (by rw [h1, h2, h3]; rfl)]
  have hmap : docs.map (migrateDoc now) = docs :=
    (List.map_congr_left hmig).trans (List.map_id docs)
  simp only [load_data, hdocs, hinv, Option.getD_some, hmap]

/-- Witness for C7 at a concrete decoded store. -/
theorem claim_C7_witness :
    load_data .missing "t" = ⟨[], []⟩
    ∧ load_data .empty "t" = ⟨[], []⟩
    ∧ load_data .corrupt "t" = ⟨[], []⟩
    ∧ load_data (.wellFormed ⟨some [⟨some "a", none, some "a.csv", some "d", some 2, some 1⟩],
        some [("x", 5)]⟩) "t"
      = ⟨[⟨some "a", none, some "a.csv", some "d", some 2, some 1⟩], [("x", 5)]⟩ :=
  claim_C7 "t" _ _ _ rfl rfl
    (by intro d hd; rcases List.mem_singleton.mp hd with rfl; exact ⟨rfl, rfl, rfl⟩)

theorem annotateLine_originals (g : Option GeminiCall) (catalog : List CatalogEntry)
    (ms thr : ℚ) (line : InvoiceLine) :
    (annotateLine g catalog ms thr line).originals = line.originals := by
  unfold annotateLine
  repeat' split
  all_goals rfl

theorem fuzzyAnnotateLine_originals (catalog : List CatalogEntry) (ms : ℚ)
    (line : InvoiceLine) :
    (fuzzyAnnotateLine catalog ms line).originals = line.originals := by
  unfold fuzzyAnnotateLine
  cases lineCandidates catalog ms line.description with
  | nil => rfl
  | cons best rest => rfl

/-- Claim C9: both matchers return one annotated record per input record,
in the same order, and never change the original extraction fields
(line_id, description, quantity, unit_price, line_total); annotation only
sets the added fields. -/
theorem claim_C9 (g : Option GeminiCall) (catalog : List CatalogEntry)
    (ms thr : ℚ) (lines : List InvoiceLine) :
    (match_descriptions g catalog ms thr lines).map AnnotatedLine.originals
        = lines.map InvoiceLine.originals
    ∧ (match_descriptions g catalog ms thr lines).length = lines.length
    ∧ (fuzzy_match_descriptions catalog ms lines).map AnnotatedLine.originals
        = lines.map InvoiceLine.originals
    ∧ (fuzzy_match_descriptions catalog ms lines).length = lines.length := by
  unfold match_descriptions fuzzy_match_descriptions
  refine ⟨?_, by simp, ?_, by simp⟩
  · rw [List.map_map]
    exact List.map_congr_left (fun line _ => annotateLine_originals g catalog ms thr line)
  · rw [List.map_map]
    exact List.map_congr_left (fun line _ => fuzzyAnnotateLine_originals catalog ms line)

/-- Claim C8: after the registry step of a processing run (append the new
record, re-sort with the source merge sort), the registry is sorted by
name, case-insensitively, ascending, it holds exactly the old records plus
the new one, and records with equal case-insensitive names keep their prior
relative order (stability, stated as preservation of every equal-key
filter). -/
theorem claim_C8 (docs : List DocRecord) (doc : DocRecord) :
    List.Perm (registryAppend docs doc) (docs ++ [doc])
    ∧ (registryAppend docs doc).Pairwise (fun a b => lowerKey a.name ≤ lowerKey b.name)
    ∧ ∀ key : List Char,
        (registryAppend docs doc).filter (fun d => lowerKey d.name == key)
          = (docs ++ [doc]).filter (fun d => lowerKey d.name == key) := by
  unfold registryAppend merge_sort
  refine ⟨mergeSortKey_perm _ _, pairwise_mergeSortKey _ _, ?_⟩
  intro key
  refine filter_mergeSortKey _ _ ?_ _
  intro a b ha hb
  show lowerKey a.name = lowerKey b.name
  rw [eq_of_beq ha, eq_of_beq hb]

end Invoice

namespace Invoice

/-- The contributions a list of artifact rows makes, for one key, in row
order (quantities of rows matching the key whose quantity parses). -/
def rowContribs (key : String) (rows : List ArtifactRow) : List ℚ :=
  rows.filterMap (fun r =>
    if r.matched_description = some key then parseFloat r.quantity else none)

/-- How a ledger cell combines with a list of later contributions. -/
def combineContrib (o : Option ℚ) (qs : List ℚ) : Option ℚ :=
  match o with
  | some v => some (v + qs.sum)
  | none => if qs = [] then none else some qs.sum

theorem combineContrib_nil (o : Option ℚ) : combineContrib o [] = o := by
  cases o <;> simp [combineContrib]

theorem combineContrib_cons (o : Option ℚ) (q : ℚ) (qs : List ℚ) :
    combineContrib (some (o.getD 0 + q)) qs = combineContrib o (q :: qs) := by
  cases o with
  | none => simp [combineContrib, add_assoc]
  | some v => simp [combineContrib, add_assoc]

theorem combineContrib_append (o : Option ℚ) (qs1 qs2 : List ℚ) :
    combineContrib (combineContrib o qs1) qs2 = combineContrib o (qs1 ++ qs2) := by
  cases o with
  | some v => simp [combineContrib, add_assoc]
  | none =>
      rcases qs1 with _ | ⟨q, qs⟩
      · simp [combineContrib]
      · simp [combineContrib, add_assoc]

theorem foldl_recomputeRow_lookup (key : String) (hk1 : key ≠ "") (hk2 : key ≠ "nan")
    (rows : List ArtifactRow) :
    ∀ inv : Inventory,
      invLookup (rows.foldl recomputeRow inv) key
        = combineContrib (invLookup inv key) (rowContribs key rows) := by
  induction rows with
  | nil => intro inv; simp [rowContribs, combineContrib_nil]
  | cons r rs ih =>
      intro inv
      rw [List.foldl_cons, ih (recomputeRow inv r)]
      cases hmd : r.matched_description with
      | none =>
          have hrow : recomputeRow inv r = inv := by
            unfold recomputeRow; rw [hmd]; rfl
          have hcon : rowContribs key (r :: rs) = rowContribs key rs := by
            simp [rowContribs, hmd]
          rw [hrow, hcon]
      | some dd =>
          by_cases hdk : dd = key
          · subst hdk
            have hcon : rowContribs dd (r :: rs)
                = match parseFloat r.quantity with
                  | some q => q :: rowContribs dd rs
                  | none => rowContribs dd rs := by
              cases hpf : parseFloat r.quantity <;> simp [rowContribs, hmd, hpf]
            cases hpf : parseFloat r.quantity with
            | none =>
                have hrow : recomputeRow inv r = inv := by
                  unfold recomputeRow; rw [hmd]
                  simp [hk1, hk2, hpf]
                rw [hrow, hcon, hpf]
            | some q =>
                have hrow : recomputeRow inv r = invAdd inv dd q := by
                  unfold recomputeRow; rw [hmd]
                  simp [hk1, hk2, hpf]
                rw [hrow, hcon, hpf, invLookup_invAdd_self, combineContrib_cons]
          · have hcon : rowContribs key (r :: rs) = rowContribs key rs := by
              have : ¬ r.matched_description = some key := by
                rw [hmd]; intro hc; exact hdk (Option.some.injEq dd key ▸ hc)
              simp [rowContribs, this]
            have hlk : invLookup (recomputeRow inv r) key = invLookup inv key := by
              by_cases hde : dd = ""
              · have hrow : recomputeRow inv r = inv := by
                  unfold recomputeRow; rw [hmd]; simp [hde]
                rw [hrow]
              · by_cases hdn : dd = "nan"
                · have hrow : recomputeRow inv r = inv := by
                    unfold recomputeRow; rw [hmd]; simp [hde, hdn]
                  rw [hrow]
                · cases hpf : parseFloat r.quantity with
                  | none =>
                      have hrow : recomputeRow inv r = inv := by
                        unfold recomputeRow; rw [hmd]; simp [hde, hdn, hpf]
                      rw [hrow]
                  | some q =>
                      have hrow : recomputeRow inv r = invAdd inv dd q := by
                        unfold recomputeRow; rw [hmd]; simp [hde, hdn, hpf]
                      rw [hrow]
                      exact invLookup_invAdd_other inv dd key q (fun hc => hdk hc.symm)
            rw [hlk, hcon]

theorem recalculate_lookup (key : String) (hk1 : key ≠ "") (hk2 : key ≠ "nan")
    (artifacts : List (List ArtifactRow)) :
    ∀ inv : Inventory,
      invLookup (artifacts.foldl (fun inv rows => rows.foldl recomputeRow inv) inv) key
        = combineContrib (invLookup inv key) (rowContribs key artifacts.flatten) := by
  induction artifacts with
  | nil => intro inv; simp [rowContribs, combineContrib_nil]
  | cons rows rest ih =>
      intro inv
      rw [List.foldl_cons, ih (rows.foldl recomputeRow inv),
        foldl_recomputeRow_lookup key hk1 hk2 rows inv, combineContrib_append]
      have : rowContribs key ((rows :: rest).flatten)
          = rowContribs key rows ++ rowContribs key rest.flatten := by
        simp [rowContribs, List.flatten_cons, List.filterMap_append]
      rw [this]

theorem recomputeRow_skipKey (key : String) (hk : key = "" ∨ key = "nan")
    (inv : Inventory) (r : ArtifactRow) :
    invLookup (recomputeRow inv r) key = invLookup inv key := by
  cases hmd : r.matched_description with
  | none =>
      have hrow : recomputeRow inv r = inv := by
        unfold recomputeRow; rw [hmd]; rfl
      rw [hrow]
  | some dd =>
      by_cases hde : dd = ""
      · have hrow : recomputeRow inv r = inv := by
          unfold recomputeRow; rw [hmd]; simp [hde]
        rw [hrow]
      · by_cases hdn : dd = "nan"
        · have hrow : recomputeRow inv r = inv := by
            unfold recomputeRow; rw [hmd]; simp [hde, hdn]
          rw [hrow]
        · cases hpf : parseFloat r.quantity with
          | none =>
              have hrow : recomputeRow inv r = inv := by
                unfold recomputeRow; rw [hmd]; simp [hde, hdn, hpf]
              rw [hrow]
          | some q =>
              have hrow : recomputeRow inv r = invAdd inv dd q := by
                unfold recomputeRow; rw [hmd]; simp [hde, hdn, hpf]
              rw [hrow]
              refine invLookup_invAdd_other inv dd key q ?_
              rcases hk with rfl | rfl
              · exact fun hc => hde hc.symm
              · exact fun hc => hdn hc.symm

/-- Claim C2 (amended): after a full recompute, for every key other than
the empty string and the literal "nan" (which the rebuild loop skips as
missing-value markers), the ledger value equals the sum of the quantities
of all stored artifact lines whose `matched_description` equals the key and
whose quantity parses as a number — and is absent when there are none; the
two skipped keys are always absent. -/
theorem claim_C2 (artifacts : List (List ArtifactRow)) (key : String) :
    invLookup (recalculate_inventory artifacts) key
      = if key = "" ∨ key = "nan" then none else specLedgerValue artifacts key := by
  by_cases hk : key = "" ∨ key = "nan"
  · rw [if_pos hk]
    unfold recalculate_inventory
    have : ∀ inv : Inventory,
        invLookup (artifacts.foldl (fun inv rows => rows.foldl recomputeRow inv) inv) key
          = invLookup inv key := by
      induction artifacts with
      | nil => intro inv; rfl
      | cons rows rest ih =>
          intro inv
          rw [List.foldl_cons, ih]
          induction rows generalizing inv with
          | nil => rfl
          | cons r rs ihr =>
              rw [List.foldl_cons, ihr, recomputeRow_skipKey key hk]
    rw [this []]
    rfl
  · push_neg at hk
    rw [if_neg (by tauto)]
    unfold recalculate_inventory
    rw [recalculate_lookup key hk.1 hk.2 artifacts []]
    show combineContrib none (rowContribs key artifacts.flatten) = specLedgerValue artifacts key
    have hspec : specContribs artifacts key = rowContribs key artifacts.flatten := rfl
    unfold specLedgerValue
    rw [hspec]
    unfold combineContrib
    split <;> simp_all

end Invoice

namespace Invoice

theorem parseFloat_five : parseFloat "5" = some 5 := by
  have h : parseFloatRepr "5" = some (false, 5, 0, 0) := by decide
  simp [parseFloat, h, qOfRepr]

theorem parseFloat_seven : parseFloat "7" = some 7 := by
  have h : parseFloatRepr "7" = some (false, 7, 0, 0) := by decide
  simp [parseFloat, h, qOfRepr]

/-- Counterexample to claim C2 as stated: a stored artifact line whose
matched description is the literal string "nan" (or the empty string) is
counted by the specification's sum but skipped by the rebuild loop, so the
rebuilt ledger lacks the entry the claim demands. -/
theorem claim_C2_counterexample :
    specLedgerValue [[⟨some "nan", "5"⟩, ⟨some "", "7"⟩]] "nan" = some 5
    ∧ invLookup (recalculate_inventory [[⟨some "nan", "5"⟩, ⟨some "", "7"⟩]]) "nan" = none
    ∧ specLedgerValue [[⟨some "nan", "5"⟩, ⟨some "", "7"⟩]] "" = some 7
    ∧ invLookup (recalculate_inventory [[⟨some "nan", "5"⟩, ⟨some "", "7"⟩]]) "" = none := by
  refine ⟨?_, ?_, ?_, ?_⟩
  · simp [specLedgerValue, specContribs, parseFloat_five, parseFloat_seven]
  · simp [recalculate_inventory, recomputeRow, invLookup]
  · simp [specLedgerValue, specContribs, parseFloat_five, parseFloat_seven]
  · simp [recalculate_inventory, recomputeRow, invLookup]

/-- Claim C4 (amended): the candidate list holds exactly the catalog rows
whose raw (unrounded) similarity score is at least `min_score`, each with
its stored score rounded to 4 digits, sorted by stored score
non-increasing, with equal-stored-score candidates kept in catalog
iteration order. -/
theorem claim_C4 (catalog : List CatalogEntry) (min_score : ℚ) (desc : String) :
    List.Perm (lineCandidates catalog min_score desc) (rawCandidates catalog min_score desc)
    ∧ (lineCandidates catalog min_score desc).Pairwise (fun a b => b.score ≤ a.score)
    ∧ ∀ s : ℚ,
        (lineCandidates catalog min_score desc).filter (fun c => c.score == s)
          = (rawCandidates catalog min_score desc).filter (fun c => c.score == s) := by
  unfold lineCandidates sortCandidates
  refine ⟨mergeSortKey_perm _ _, ?_, ?_⟩
  · have h := pairwise_mergeSortKey (fun m : MatchCandidate => -m.score)
      (rawCandidates catalog min_score desc)
    exact h.imp (fun hab => by simpa using hab)
  · intro s
    refine filter_mergeSortKey _ _ ?_ _
    intro a b ha hb
    show -a.score = -b.score
    rw [eq_of_beq ha, eq_of_beq hb]

theorem ratio_ab_b : ratio (lowerStr "ab") (lowerStr "b") = 2 / 3 := by
  have hl1 : lowerStr "ab" = "ab" := by decide
  have hl2 : lowerStr "b" = "b" := by decide
  have h : matchSum "ab".data "b".data 4 0 2 0 1 = 1 := by decide
  rw [hl1, hl2]
  norm_num [ratio, h]

/-- Counterexample to claim C4 as stated: the loop filters on the raw
score, not the rounded one.  With `min_score = 0.66668` and the pair
"ab"/"b" (raw score 2/3 ≈ 0.66667, rounded 0.6667) the rounded score clears
`min_score` while the raw one does not, so the candidate list the claim
demands the entry in is empty. -/
theorem claim_C4_counterexample :
    lineCandidates [⟨"C1", "b"⟩] (16667 / 25000) "ab" = []
    ∧ (16667 : ℚ) / 25000 ≤ round4 (ratio (lowerStr "ab") (lowerStr "b")) := by
  constructor
  · have hraw : rawCandidates [⟨"C1", "b"⟩] (16667 / 25000) "ab" = [] := by
      unfold rawCandidates
      rw [List.filterMap_cons]
      norm_num [ratio_ab_b]
    unfold lineCandidates
    rw [hraw]
    simp [sortCandidates, mergeSortKey]
  · rw [ratio_ab_b]
    norm_num [round4, roundHalfEven, Int.fract]

/-- Claim C5: when the arbiter is disabled or the best stored score clears
`gemini_threshold`, the engine adopts the best candidate's code,
description and score verbatim, with status "potrivit_fuzzy" (high
confidence) when the score clears the threshold and
"fuzzy_confidence_scazut" otherwise; in particular the status never
indicates arbiter involvement when the score clears the threshold. -/
theorem claim_C5 (g : Option GeminiCall) (catalog : List CatalogEntry)
    (ms thr : ℚ) (line : InvoiceLine) (best : MatchCandidate) (rest : List MatchCandidate)
    (hmatch : lineCandidates catalog ms line.description = best :: rest)
    (hcond : g = none ∨ thr ≤ best.score) :
    annotateLine g catalog ms thr line
      = annotBase line (some best.matched_code) (some best.matched_description) best.score
          (if thr ≤ best.score then "potrivit_fuzzy" else "fuzzy_confidence_scazut") none none
    ∧ (thr ≤ best.score →
        (annotateLine g catalog ms thr line).status = "potrivit_fuzzy") := by
  have hmain : annotateLine g catalog ms thr line
      = annotBase line (some best.matched_code) (some best.matched_description) best.score
          (if thr ≤ best.score then "potrivit_fuzzy" else "fuzzy_confidence_scazut")
          none none := by
    unfold annotateLine
    rw [hmatch]
    rcases hcond with rfl | hge
    · rfl
    · cases g with
      | none => rfl
      | some gf =>
          show (if best.score < thr then _ else _) = _
          rw [if_neg (not_lt.mpr hge)]
  refine ⟨hmain, fun hge => ?_⟩
  rw [hmain]
  show (if thr ≤ best.score then "potrivit_fuzzy" else "fuzzy_confidence_scazut")
      = "potrivit_fuzzy"
  rw [if_pos hge]

theorem lineCandidates_single_exact :
    lineCandidates [⟨"C100", "x"⟩] (18 / 100) "x" = [⟨"C100", "x", 1⟩] := by
  have hl : lowerStr "x" = "x" := by decide
  have hm : matchSum "x".data "x".data 3 0 1 0 1 = 1 := by decide
  have hr : ratio (lowerStr "x") (lowerStr "x") = 1 := by
    rw [hl]; norm_num [ratio, hm]
  have hr4 : round4 (1 : ℚ) = 1 := by norm_num [round4, roundHalfEven, Int.fract]
  have hraw : rawCandidates [⟨"C100", "x"⟩] (18 / 100) "x" = [⟨"C100", "x", 1⟩] := by
    unfold rawCandidates
    rw [List.filterMap_cons]
    norm_num [hr, hr4]
  unfold lineCandidates
  rw [hraw]
  simp [sortCandidates, mergeSortKey]

/-- Witness for C5: arbiter disabled, exact match at score 1. -/
theorem claim_C5_witness :
    annotateLine none [⟨"C100", "x"⟩] (18 / 100) (30 / 100) ⟨"1", "x", "2", "3", "6"⟩
      = annotBase ⟨"1", "x", "2", "3", "6"⟩ (some "C100") (some "x") 1
          (if (30 : ℚ) / 100 ≤ 1 then "potrivit_fuzzy" else "fuzzy_confidence_scazut") none none
    ∧ ((30 : ℚ) / 100 ≤ 1 →
        (annotateLine none [⟨"C100", "x"⟩] (18 / 100) (30 / 100) ⟨"1", "x", "2", "3", "6"⟩).status
          = "potrivit_fuzzy") :=
  claim_C5 none [⟨"C100", "x"⟩] (18 / 100) (30 / 100) ⟨"1", "x", "2", "3", "6"⟩
    ⟨"C100", "x", 1⟩ [] lineCandidates_single_exact (Or.inl rfl)

/-- Claim C6: a line for which no catalog candidate clears `min_score` is
annotated with null code and description, score 0 and status
"fara_potriviri", and processing proceeds to the remaining lines. -/
theorem claim_C6 (g : Option GeminiCall) (catalog : List CatalogEntry)
    (ms thr : ℚ) (line : InvoiceLine) (rest : List InvoiceLine)
    (hempty : lineCandidates catalog ms line.description = []) :
    annotateLine g catalog ms thr line = annotBase line none none 0 "fara_potriviri" none none
    ∧ match_descriptions g catalog ms thr (line :: rest)
        = annotateLine g catalog ms thr line :: match_descriptions g catalog ms thr rest := by
  constructor
  · unfold annotateLine
    rw [hempty]
  · rfl

theorem lineCandidates_disjoint :
    lineCandidates [⟨"C1", "y"⟩] (18 / 100) "x" = [] := by
  have hl1 : lowerStr "x" = "x" := by decide
  have hl2 : lowerStr "y" = "y" := by decide
  have hm : matchSum "x".data "y".data 3 0 1 0 1 = 0 := by decide
  have hr : ratio (lowerStr "x") (lowerStr "y") = 0 := by
    rw [hl1, hl2]; norm_num [ratio, hm]
  have hraw : rawCandidates [⟨"C1", "y"⟩] (18 / 100) "x" = [] := by
    unfold rawCandidates
    rw [List.filterMap_cons]
    norm_num [hr]
  unfold lineCandidates
  rw [hraw]
  simp [sortCandidates, mergeSortKey]

/-- Witness for C6: disjoint strings score 0 < 0.18. -/
theorem claim_C6_witness :
    annotateLine none [⟨"C1", "y"⟩] (18 / 100) (30 / 100) ⟨"1", "x", "2", "3", "6"⟩
      = annotBase ⟨"1", "x", "2", "3", "6"⟩ none none 0 "fara_potriviri" none none
    ∧ match_descriptions none [⟨"C1", "y"⟩] (18 / 100) (30 / 100)
        (⟨"1", "x", "2", "3", "6"⟩ :: [⟨"2", "z", "1", "1", "1"⟩])
        = annotateLine none [⟨"C1", "y"⟩] (18 / 100) (30 / 100) ⟨"1", "x", "2", "3", "6"⟩
            :: match_descriptions none [⟨"C1", "y"⟩] (18 / 100) (30 / 100)
                [⟨"2", "z", "1", "1", "1"⟩] :=
  claim_C6 none [⟨"C1", "y"⟩] (18 / 100) (30 / 100) ⟨"1", "x", "2", "3", "6"⟩
    [⟨"2", "z", "1", "1", "1"⟩] lineCandidates_disjoint

end Invoice

namespace Invoice

theorem take_max_self {α : Type} (l : List α) : l.take (max 5 l.length) = l :=
  List.take_of_length_le (le_max_right 5 l.length)

/-- Claim C3: for a non-empty offered candidate list, an undecodable
backend reply, or a selected code matching no offered candidate, makes the
arbiter return the first (best) offered candidate's code and description
with the fallback reasoning; its result code never leaves the offered set;
and an empty candidate list yields the no-match result (null code,
confidence 0, status "no_match"). -/
theorem claim_C3 (backend : GeminiBackend) (desc : String) (c0 : MatchCandidate)
    (rest : List MatchCandidate) :
    (backend desc (c0 :: rest) = .ok none →
        analyzeCandidates backend desc (c0 :: rest)
          = { createFallbackResult c0 "Nu s-a putut parsa raspunsul AI"
              with ai_method := some "gemini" })
    ∧ (∀ (g : GeminiJson) (sc : String),
        backend desc (c0 :: rest) = .ok (some g) →
        g.selected_code = some sc →
        sc ≠ "null" →
        (c0 :: rest).find? (fun c => c.matched_code == sc) = none →
        analyzeCandidates backend desc (c0 :: rest)
          = { createFallbackResult c0
                ("AI a ales un cod invalid (" ++ sc ++ ") care nu era in lista")
              with ai_method := some "gemini" })
    ∧ ((analyzeCandidates backend desc (c0 :: rest)).matched_code = none
        ∨ ∃ c ∈ c0 :: rest,
            (analyzeCandidates backend desc (c0 :: rest)).matched_code
              = some c.matched_code)
    ∧ analyzeCandidates backend desc ([] : List MatchCandidate) = createNoMatchResult := by
  have htake := take_max_self (c0 :: rest)
  refine ⟨?_, ?_, ?_, rfl⟩
  · intro hb
    simp only [analyzeCandidates, htake, hb, parseGeminiResponse]
  · intro g sc hb hsel hnull hfind
    simp only [analyzeCandidates, htake, hb, parseGeminiResponse, hsel, hnull, hfind,
      if_neg, if_false]
  · cases hb : backend desc (c0 :: rest) with
    | error e =>
        simp only [analyzeCandidates, htake, hb]
        exact Or.inr ⟨c0, List.mem_cons_self c0 rest, rfl⟩
    | ok decoded =>
        cases decoded with
        | none =>
            simp only [analyzeCandidates, htake, hb, parseGeminiResponse]
            exact Or.inr ⟨c0, List.mem_cons_self c0 rest, rfl⟩
        | some g =>
            simp only [analyzeCandidates, htake, hb, parseGeminiResponse]
            cases hsel : g.selected_code with
            | none =>
                simp only [hsel]
                left
                trivial
            | some sc =>
                simp only [hsel]
                by_cases hnull : sc = "null"
                · rw [if_pos hnull]
                  left
                  trivial
                · rw [if_neg hnull]
                  cases hfind : (c0 :: rest).find? (fun c => c.matched_code == sc) with
                  | none =>
                      simp only [hfind]
                      exact Or.inr ⟨c0, List.mem_cons_self c0 rest, rfl⟩
                  | some c =>
                      simp only [hfind]
                      exact Or.inr ⟨c, List.mem_of_find?_eq_some hfind, rfl⟩

/-- Witness for C3: one offered candidate, a backend reply that fails to
decode. -/
theorem claim_C3_witness :
    analyzeCandidates (fun _ _ => Except.ok none) "d" [⟨"C1", "x", 1 / 2⟩]
      = { createFallbackResult ⟨"C1", "x", 1 / 2⟩ "Nu s-a putut parsa raspunsul AI"
          with ai_method := some "gemini" } :=
  (claim_C3 (fun _ _ => Except.ok none) "d" ⟨"C1", "x", 1 / 2⟩ []).1 rfl

end Invoice
